import Mathlib

/-!
Verification of the mule-detection feature pipeline
(community mule density, counterparty diversity, distance to mule).

The repository's Python files are thin orchestration around a graph store:
stages run store queries, real-time lookups wrap a single-record query, and
the community batch sequences project → detect → density with a guaranteed
cleanup in a `finally` block.  We embed that orchestration shallowly: a store
is an abstract state `σ`, a stage is a state transformer that may also raise
an error (Python exceptions propagate while side effects on the store
remain), and the query algorithms that live in the store (Cypher files) are
modelled from the specification where noted.
-/

namespace MuleDetection

/-! ### Orchestrator model (community_mule_density.run_batch)

`run_batch` in `community_mule_density.py` is

    try:
        projection = project_graph(...)
        communities = detect_communities(...)
        densities = calculate_density(...)
        return densities
    finally:
        cleanup(...)

A stage takes the store state and returns the new state together with either
a result or a raised error (a Python exception mutates state and then
propagates).  `tryFinally` is the Python `try/finally` semantics: the
finaliser always runs on the state the body reached, and an error raised by
the finaliser replaces the body's outcome. -/

namespace Orchestrator

variable {σ ε π κ ρ : Type}

/-- A stage outcome: new store state plus either a value or a raised error. -/
abbrev StageResult (σ ε ρ : Type) := σ × Except ε ρ

/-- Python `try body finally fin`: the finaliser always runs on the state the
body ended in; if the finaliser raises, its error replaces the body's
outcome (whether that outcome was a value or an error). -/
def tryFinally (body : σ → StageResult σ ε ρ) (fin : σ → StageResult σ ε κ)
    (s : σ) : StageResult σ ε ρ :=
  let bo := body s
  let fo := fin bo.1
  (fo.1, match fo.2 with
    | Except.error e => Except.error e
    | Except.ok _ => bo.2)

/-- The `try` body of `run_batch`: project the graph, then detect
communities, then calculate density, short-circuiting on the first raised
error; the density summaries are the returned value. -/
def batchBody (project : σ → StageResult σ ε π)
    (detect : σ → StageResult σ ε κ)
    (density : σ → StageResult σ ε ρ) (s : σ) : StageResult σ ε ρ :=
  match project s with
  | (s1, Except.error e) => (s1, Except.error e)
  | (s1, Except.ok _) =>
    match detect s1 with
    | (s2, Except.error e) => (s2, Except.error e)
    | (s2, Except.ok _) => density s2

/-- `community_mule_density.run_batch`: the three pipeline stages inside a
`try`, with `cleanup` as the `finally` block. -/
def run_batch (project : σ → StageResult σ ε π)
    (detect : σ → StageResult σ ε κ)
    (density : σ → StageResult σ ε ρ)
    (cleanup : σ → StageResult σ ε κ) (s : σ) : StageResult σ ε ρ :=
  tryFinally (batchBody project detect density) cleanup s

/-- Pipeline step tags, used to record the order in which stages execute. -/
inductive Step : Type
  | project : Step
  | detect : Step
  | density : Step
  | cleanup : Step
deriving DecidableEq, Repr

/-- Instrument a stage so that executing it appends its tag to a log carried
alongside the store state. -/
def instr (tag : Step) (f : σ → StageResult σ ε ρ) :
    σ × List Step → StageResult (σ × List Step) ε ρ :=
  fun sl =>
    let r := f sl.1
    ((r.1, sl.2 ++ [tag]), r.2)

end Orchestrator

end MuleDetection

namespace MuleDetection.Orchestrator

variable {σ ε π κ ρ : Type}

/-- C1: in every invocation of the community batch entry point `run_batch`
the stages execute in the order project → detect communities → calculate
density (stopping after the first raised stage), the cleanup step executes
exactly once afterwards — both when all stages succeed and when any stage
raises — a raising body never produces an `ok` outcome, and when cleanup
itself succeeds the body's outcome (the stage error, or the density
summaries) is surfaced to the caller unchanged. -/
theorem C1_run_batch_order_cleanup_once
    (project : σ → StageResult σ ε π) (detect : σ → StageResult σ ε κ)
    (density : σ → StageResult σ ε ρ) (cleanup : σ → StageResult σ ε κ)
    (s : σ) :
    (let log := (run_batch (instr Step.project project)
        (instr Step.detect detect) (instr Step.density density)
        (instr Step.cleanup cleanup) (s, [])).1.2
     log = [Step.project, Step.cleanup] ∨
     log = [Step.project, Step.detect, Step.cleanup] ∨
     log = [Step.project, Step.detect, Step.density, Step.cleanup]) ∧
    (∀ e sb, batchBody project detect density s = (sb, Except.error e) →
      ∀ v, (run_batch project detect density cleanup s).2 ≠ Except.ok v) ∧
    (∀ r sb, batchBody project detect density s = (sb, r) →
      ∀ sc k, cleanup sb = (sc, Except.ok k) →
        run_batch project detect density cleanup s = (sc, r)) := by
  refine ⟨?_, ?_, ?_⟩
  · rcases hp : project s with ⟨s1, e1 | v1⟩
    · left
      simp [run_batch, tryFinally, batchBody, instr, hp]
    · rcases hd : detect s1 with ⟨s2, e2 | v2⟩
      · right; left
        simp [run_batch, tryFinally, batchBody, instr, hp, hd]
      · right; right
        simp [run_batch, tryFinally, batchBody, instr, hp, hd]
  · intro e sb hbody v
    rcases hc : cleanup sb with ⟨sc, ec | kc⟩ <;>
      simp [run_batch, tryFinally, hbody, hc]
  · intro r sb hbody sc k hc
    simp [run_batch, tryFinally, hbody, hc]

/-- Witness for C1 at concrete stages over a unit store: all stages
succeed, the log is the full pipeline followed by cleanup, and the ok
summaries pass through. -/
theorem C1_run_batch_order_cleanup_once_witness :
    (let log := (run_batch
        (instr Step.project (fun s : Unit => (s, (Except.ok 0 : Except Nat Nat))))
        (instr Step.detect (fun s => (s, (Except.ok 1 : Except Nat Nat))))
        (instr Step.density (fun s => (s, (Except.ok 2 : Except Nat Nat))))
        (instr Step.cleanup (fun s => (s, (Except.ok 3 : Except Nat Nat))))
        ((), [])).1.2
     log = [Step.project, Step.cleanup] ∨
     log = [Step.project, Step.detect, Step.cleanup] ∨
     log = [Step.project, Step.detect, Step.density, Step.cleanup]) ∧
    (∀ e sb, batchBody (fun s : Unit => (s, (Except.ok 0 : Except Nat Nat)))
        (fun s => (s, (Except.ok 1 : Except Nat Nat)))
        (fun s => (s, (Except.ok 2 : Except Nat Nat))) () =
          (sb, Except.error e) →
      ∀ v, (run_batch (fun s : Unit => (s, (Except.ok 0 : Except Nat Nat)))
        (fun s => (s, (Except.ok 1 : Except Nat Nat)))
        (fun s => (s, (Except.ok 2 : Except Nat Nat)))
        (fun s => (s, (Except.ok 3 : Except Nat Nat))) ()).2 ≠ Except.ok v) ∧
    (∀ r sb, batchBody (fun s : Unit => (s, (Except.ok 0 : Except Nat Nat)))
        (fun s => (s, (Except.ok 1 : Except Nat Nat)))
        (fun s => (s, (Except.ok 2 : Except Nat Nat))) () = (sb, r) →
      ∀ sc k, (fun s : Unit => (s, (Except.ok 3 : Except Nat Nat))) sb =
          (sc, Except.ok k) →
        run_batch (fun s : Unit => (s, (Except.ok 0 : Except Nat Nat)))
          (fun s => (s, (Except.ok 1 : Except Nat Nat)))
          (fun s => (s, (Except.ok 2 : Except Nat Nat)))
          (fun s => (s, (Except.ok 3 : Except Nat Nat))) () = (sc, r)) :=
  C1_run_batch_order_cleanup_once _ _ _ _ ()

/-- C10: if the cleanup step of `run_batch` raises, its error is what the
caller sees: it replaces the body's outcome, whether the three stages had
succeeded (the computed density summaries are not returned) or a stage had
already raised (the cleanup error replaces the stage error). -/
theorem C10_cleanup_error_replaces_outcome
    (project : σ → StageResult σ ε π) (detect : σ → StageResult σ ε κ)
    (density : σ → StageResult σ ε ρ) (cleanup : σ → StageResult σ ε κ)
    (s sb sc : σ) (r : Except ε ρ) (ec : ε)
    (hbody : batchBody project detect density s = (sb, r))
    (hcleanup : cleanup sb = (sc, Except.error ec)) :
    run_batch project detect density cleanup s = (sc, Except.error ec) := by
  simp [run_batch, tryFinally, hbody, hcleanup]

/-- Witness for C10: with all three stages succeeding (summaries value 2)
but cleanup raising error 9, the batch returns error 9 and not the
summaries. -/
theorem C10_cleanup_error_replaces_outcome_witness :
    run_batch (fun s : Unit => (s, (Except.ok 0 : Except Nat Nat)))
      (fun s => (s, (Except.ok 1 : Except Nat Nat)))
      (fun s => (s, (Except.ok 2 : Except Nat Nat)))
      (fun s => (s, (Except.error 9 : Except Nat Nat))) () =
      ((), Except.error 9) :=
  C10_cleanup_error_replaces_outcome _ _ _ _ () () () (Except.ok 2) 9 rfl rfl

end MuleDetection.Orchestrator

namespace MuleDetection.Queries

/-! ### Real-time lookup wrappers

`query_accounts` (community_mule_density.py), `query_account` and
`query_realtime` (counterparty_diversity.py) all have the shape

    result = session.run(query, **params)
    record = result.single()
    return record.data() if record else None

We model the store session as an abstract function from a query tag and its
parameters to the list of result records, `result.single()` as the first
record of that list, and `record.data()` as an abstract conversion from a
driver record to a returned dictionary. -/

/-- The query files the real-time lookups load, as tags. -/
inductive QueryTag : Type
  | communityQueryAccounts : QueryTag
  | diversityQueryAccount : QueryTag
  | diversityQueryRealtime : QueryTag
deriving DecidableEq

/-- An abstract store driver: running a query yields a list of records, and
`data` converts a record to the dictionary handed back to the caller. -/
structure Driver (Params Rec Dict : Type) : Type where
  runQuery : QueryTag → Params → List Rec
  data : Rec → Dict

/-- `result.single()` of the neo4j driver: the first record of the result
stream, or none when the stream is empty. -/
def single {Rec : Type} (records : List Rec) : Option Rec :=
  records.head?

/-- `community_mule_density.query_accounts`: run the query, take the single
record, and return `record.data()` when present, `None` otherwise. -/
def query_accounts {Params Rec Dict : Type} (d : Driver Params Rec Dict)
    (params : Params) : Option Dict :=
  match single (d.runQuery QueryTag.communityQueryAccounts params) with
  | some r => some (d.data r)
  | none => none

/-- `counterparty_diversity.query_account`: same shape over its own query. -/
def query_account {Params Rec Dict : Type} (d : Driver Params Rec Dict)
    (params : Params) : Option Dict :=
  match single (d.runQuery QueryTag.diversityQueryAccount params) with
  | some r => some (d.data r)
  | none => none

/-- `counterparty_diversity.query_realtime`: same shape over its own query. -/
def query_realtime {Params Rec Dict : Type} (d : Driver Params Rec Dict)
    (params : Params) : Option Dict :=
  match single (d.runQuery QueryTag.diversityQueryRealtime params) with
  | some r => some (d.data r)
  | none => none

/-- C2: each real-time lookup returns the explicit not-found signal `none`
exactly when the store query yields no record, and otherwise returns
precisely the data of the record the query produced — the record is passed
through unmodified, so no field of it is defaulted or dropped. -/
theorem C2_realtime_not_found_or_complete {Params Rec Dict : Type}
    (d : Driver Params Rec Dict) (params : Params) :
    (query_accounts d params = none ↔
      single (d.runQuery QueryTag.communityQueryAccounts params) = none) ∧
    (∀ r, single (d.runQuery QueryTag.communityQueryAccounts params) = some r →
      query_accounts d params = some (d.data r)) ∧
    (query_account d params = none ↔
      single (d.runQuery QueryTag.diversityQueryAccount params) = none) ∧
    (∀ r, single (d.runQuery QueryTag.diversityQueryAccount params) = some r →
      query_account d params = some (d.data r)) ∧
    (query_realtime d params = none ↔
      single (d.runQuery QueryTag.diversityQueryRealtime params) = none) ∧
    (∀ r, single (d.runQuery QueryTag.diversityQueryRealtime params) = some r →
      query_realtime d params = some (d.data r)) := by
  refine ⟨?_, ?_, ?_, ?_, ?_, ?_⟩
  · rcases hq : single (d.runQuery QueryTag.communityQueryAccounts params) with
      _ | r <;> simp [query_accounts, hq]
  · intro r h; simp [query_accounts, h]
  · rcases hq : single (d.runQuery QueryTag.diversityQueryAccount params) with
      _ | r <;> simp [query_account, hq]
  · intro r h; simp [query_account, h]
  · rcases hq : single (d.runQuery QueryTag.diversityQueryRealtime params) with
      _ | r <;> simp [query_realtime, hq]
  · intro r h; simp [query_realtime, h]

/-- Witness for C2 at a concrete driver: an empty store gives not-found on
the community lookup, a singleton result stream passes the record's data
through. -/
theorem C2_realtime_not_found_or_complete_witness :
    (query_accounts (Driver.mk (fun _ _ => ([] : List Nat)) (fun n => n)) 0 =
        none ↔
      single ((Driver.mk (fun _ _ => ([] : List Nat)) (fun n => n)).runQuery
        QueryTag.communityQueryAccounts 0) = none) ∧
    (∀ r, single ((Driver.mk (fun _ _ => ([] : List Nat))
        (fun n => n)).runQuery QueryTag.communityQueryAccounts 0) = some r →
      query_accounts (Driver.mk (fun _ _ => ([] : List Nat)) (fun n => n)) 0 =
        some r) ∧
    (query_account (Driver.mk (fun _ _ => ([] : List Nat)) (fun n => n)) 0 =
        none ↔
      single ((Driver.mk (fun _ _ => ([] : List Nat)) (fun n => n)).runQuery
        QueryTag.diversityQueryAccount 0) = none) ∧
    (∀ r, single ((Driver.mk (fun _ _ => ([] : List Nat))
        (fun n => n)).runQuery QueryTag.diversityQueryAccount 0) = some r →
      query_account (Driver.mk (fun _ _ => ([] : List Nat)) (fun n => n)) 0 =
        some r) ∧
    (query_realtime (Driver.mk (fun _ _ => ([] : List Nat)) (fun n => n)) 0 =
        none ↔
      single ((Driver.mk (fun _ _ => ([] : List Nat)) (fun n => n)).runQuery
        QueryTag.diversityQueryRealtime 0) = none) ∧
    (∀ r, single ((Driver.mk (fun _ _ => ([] : List Nat))
        (fun n => n)).runQuery QueryTag.diversityQueryRealtime 0) = some r →
      query_realtime (Driver.mk (fun _ _ => ([] : List Nat)) (fun n => n)) 0 =
        some r) :=
  C2_realtime_not_found_or_complete _ 0

end MuleDetection.Queries

namespace MuleDetection.DistanceToMule

/-! ### distance_to_mule.py: run and run_batch

`run` executes the distance query for one account and returns the list of
result dictionaries; each dictionary has the keys `account`,
`distanceToMule`, `nearestMule`, `pathNodes`.  `run_batch` loops over the
requested account numbers and maps each to the first result record, or to
an explicit all-null record when the query returned nothing. -/

/-- One result dictionary of the distance query, with the nullable fields
the docstring of `run` lists. -/
structure DTMRecord : Type where
  account : Option String
  distanceToMule : Option Int
  nearestMule : Option String
  pathNodes : Option (List String)
deriving DecidableEq, Repr

/-- `distance_to_mule.run`: execute the distance query for one account
against the store and return all result records.  The store's answer to
the Cypher query is abstract here (`queryStore`). -/
def run (queryStore : String → List DTMRecord) (accountNumber : String) :
    List DTMRecord :=
  queryStore accountNumber

/-- The record `run_batch` stores for one account: the first query result
when there is one, otherwise the explicit record with `distanceToMule`,
`nearestMule` and `pathNodes` all null. -/
def batchEntry (queryStore : String → List DTMRecord) (a : String) :
    DTMRecord :=
  match (run queryStore a).head? with
  | some r => r
  | none => ⟨some a, none, none, none⟩

/-- `distance_to_mule.run_batch`: the dictionary mapping each requested
account number to its entry, built by one query per account. -/
def run_batch (queryStore : String → List DTMRecord)
    (account_numbers : List String) : List (String × DTMRecord) :=
  account_numbers.map fun a => (a, batchEntry queryStore a)

theorem lookup_map_self {α β : Type} [DecidableEq α] (f : α → β)
    (l : List α) (a : α) (h : a ∈ l) :
    (l.map fun x => (x, f x)).lookup a = some (f a) := by
  induction l with
  | nil => cases h
  | cons b bs ih =>
    rcases List.mem_cons.mp h with hab | hmem
    · subst hab; simp [List.lookup]
    · by_cases hab : a = b
      · subst hab; simp [List.lookup]
      · have hb : (a == b) = false := beq_eq_false_iff_ne.mpr hab
        simpa [List.lookup, hb] using ih hmem

/-- C7: the keys of the dictionary `run_batch` returns are exactly the
requested account numbers; a requested account whose query returns no
record is mapped to the explicit record with `distanceToMule`,
`nearestMule` and `pathNodes` all null (never omitted); and an account
with results is mapped to the first result record. -/
theorem C7_run_batch_total_explicit_nulls
    (queryStore : String → List DTMRecord) (account_numbers : List String) :
    ((run_batch queryStore account_numbers).map Prod.fst = account_numbers) ∧
    (∀ a ∈ account_numbers, run queryStore a = [] →
      (run_batch queryStore account_numbers).lookup a =
        some ⟨some a, none, none, none⟩) ∧
    (∀ a ∈ account_numbers, ∀ r rest, run queryStore a = r :: rest →
      (run_batch queryStore account_numbers).lookup a = some r) := by
  refine ⟨?_, ?_, ?_⟩
  · simp [run_batch, Function.comp_def]
  · intro a ha hempty
    have := lookup_map_self (batchEntry queryStore) account_numbers a ha
    rwa [show batchEntry queryStore a = ⟨some a, none, none, none⟩ by
      simp [batchEntry, hempty]] at this
  · intro a ha r rest hcons
    have := lookup_map_self (batchEntry queryStore) account_numbers a ha
    rwa [show batchEntry queryStore a = r by simp [batchEntry, hcons]] at this

/-- Witness for C7 at a concrete store: account A has one result record,
account B has none and gets the explicit all-null record. -/
theorem C7_run_batch_total_explicit_nulls_witness :
    ((run_batch
        (fun a => if a = "A" then [⟨some "A", some 2, some "M", none⟩] else [])
        ["A", "B"]).map Prod.fst = ["A", "B"]) ∧
    (∀ a ∈ ["A", "B"],
      run (fun a => if a = "A" then [⟨some "A", some 2, some "M", none⟩]
        else []) a = [] →
      (run_batch (fun a => if a = "A" then
          [⟨some "A", some 2, some "M", none⟩] else [])
        ["A", "B"]).lookup a = some ⟨some a, none, none, none⟩) ∧
    (∀ a ∈ ["A", "B"], ∀ r rest,
      run (fun a => if a = "A" then [⟨some "A", some 2, some "M", none⟩]
        else []) a = r :: rest →
      (run_batch (fun a => if a = "A" then
          [⟨some "A", some 2, some "M", none⟩] else [])
        ["A", "B"]).lookup a = some r) :=
  C7_run_batch_total_explicit_nulls _ ["A", "B"]

end MuleDetection.DistanceToMule

namespace MuleDetection.Projection

/-! ### Graph projection (community pipeline step 1) -/

/-- The fixed projection name used across all queries of the community
pipeline (`GRAPH_NAME` in community_mule_density.py). -/
def GRAPH_NAME : String := "community-detection-graph"

/-- The error taxonomy entry for projection failures (spec section 7). -/
inductive PipelineError : Type
  | ProjectionError : PipelineError
deriving DecidableEq, Repr

/-- The store state the projection step sees: whether the store is
reachable, and the names of the projections currently held. -/
structure ProjStore : Type where
  reachable : Bool
  projections : List String
  nodeCount : Nat
  relationshipCount : Nat
deriving DecidableEq, Repr

/-- The record `project_graph` returns: graphName, nodeCount,
relationshipCount. -/
structure ProjInfo : Type where
  graphName : String
  nodeCount : Nat
  relationshipCount : Nat
deriving DecidableEq, Repr

/-- Modelled from the spec: the Cypher text `1-project-graph.cypher`
executed by `project_graph` is not in the repository snapshot; section 4.1
specifies that creating the working projection fails with
`ProjectionError` when the store is unreachable or a projection under the
pipeline's fixed name already exists, and otherwise allocates the named
projection and reports node and relationship counts. -/
def project_graph (s : ProjStore) :
    Except PipelineError (ProjStore × ProjInfo) :=
  if s.reachable = false then Except.error PipelineError.ProjectionError
  else if s.projections.contains GRAPH_NAME then
    Except.error PipelineError.ProjectionError
  else
    Except.ok ({ s with projections := GRAPH_NAME :: s.projections },
      ⟨GRAPH_NAME, s.nodeCount, s.relationshipCount⟩)

/-- C8: `project_graph` fails with `ProjectionError` when the store is
unreachable and when a projection under the fixed pipeline name already
exists; it succeeds only when no such projection exists, so an existing
projection is never silently overwritten. -/
theorem C8_project_graph_no_silent_overwrite (s : ProjStore) :
    (s.reachable = false →
      project_graph s = Except.error PipelineError.ProjectionError) ∧
    (GRAPH_NAME ∈ s.projections →
      project_graph s = Except.error PipelineError.ProjectionError) ∧
    (∀ r, project_graph s = Except.ok r → GRAPH_NAME ∉ s.projections) := by
  refine ⟨?_, ?_, ?_⟩
  · intro h; simp [project_graph, h]
  · intro h
    rcases hr : s.reachable with _ | _ <;>
      simp [project_graph, hr, List.elem_eq_mem, h]
  · intro r hok hmem
    rcases hr : s.reachable with _ | _ <;>
      simp [project_graph, hr, List.elem_eq_mem, hmem] at hok

/-- Witness for C8: an unreachable store errors; a store already holding
the pipeline projection errors; and a successful run implies the name was
free. -/
theorem C8_project_graph_no_silent_overwrite_witness :
    ((ProjStore.mk false [] 0 0).reachable = false →
      project_graph (ProjStore.mk false [] 0 0) =
        Except.error PipelineError.ProjectionError) ∧
    (GRAPH_NAME ∈ (ProjStore.mk false [] 0 0).projections →
      project_graph (ProjStore.mk false [] 0 0) =
        Except.error PipelineError.ProjectionError) ∧
    (∀ r, project_graph (ProjStore.mk false [] 0 0) = Except.ok r →
      GRAPH_NAME ∉ (ProjStore.mk false [] 0 0).projections) :=
  C8_project_graph_no_silent_overwrite (ProjStore.mk false [] 0 0)

end MuleDetection.Projection

namespace MuleDetection.Diversity

/-! ### Counterparty diversity (counterparty_diversity.py)

The metric formulas live in the Cypher files, which are not in the
repository snapshot; they are modelled from spec section 4.4.  A
transaction edge is directed source → target; an account's counterparties
are the accounts it transacted with in either direction. -/

theorem any_map_fn {α β : Type} (f : α → β) (l : List α) (p : β → Bool) :
    (l.map f).any p = l.any fun a => p (f a) := by
  induction l with
  | nil => rfl
  | cons h t ih => simp [ih]

/-- A transaction edge between two accounts (read-only to this core). -/
structure Edge : Type where
  src : String
  tgt : String
deriving DecidableEq, Repr

/-- Total transaction count involving an account (either direction). -/
def totalTransactions (edges : List Edge) (a : String) : Nat :=
  edges.countP fun e => e.src == a || e.tgt == a

/-- The counterparty of each transaction involving the account, one entry
per transaction. -/
def counterpartyList (edges : List Edge) (a : String) : List String :=
  edges.filterMap fun e =>
    if e.src = a then some e.tgt
    else if e.tgt = a then some e.src
    else none

/-- Distinct count of accounts the account transacted with. -/
def uniqueCounterparties (edges : List Edge) (a : String) : Nat :=
  (counterpartyList edges a).dedup.length

/-- Transaction count with the single most frequent counterparty. -/
def topCounterpartyCount (edges : List Edge) (a : String) : Nat :=
  ((counterpartyList edges a).dedup.map
    fun c => (counterpartyList edges a).count c).foldr max 0

/-- Modelled from the spec: diversityRatio = uniqueCounterparties /
totalTransactions, null when totalTransactions = 0 (section 4.4: must not
divide by zero). -/
def diversityRatio (edges : List Edge) (a : String) : Option ℚ :=
  if totalTransactions edges a = 0 then none
  else some ((uniqueCounterparties edges a : ℚ) /
    (totalTransactions edges a : ℚ))

/-- Modelled from the spec: topCounterpartyShare = transaction count with
the most frequent counterparty / totalTransactions, null when
totalTransactions = 0. -/
def topCounterpartyShare (edges : List Edge) (a : String) : Option ℚ :=
  if totalTransactions edges a = 0 then none
  else some ((topCounterpartyCount edges a : ℚ) /
    (totalTransactions edges a : ℚ))

/-- An account record with the attributes the diversity batch writes. -/
structure DAccount : Type where
  id : String
  uniqueCounterparties : Option Nat
  totalTransactions : Option Nat
  diversityRatio : Option ℚ
  topCounterpartyShare : Option ℚ
deriving DecidableEq, Repr

/-- The diversity store: account records plus the transaction edges. -/
structure DStore : Type where
  accounts : List DAccount
  edges : List Edge
deriving DecidableEq, Repr

/-- Modelled from the spec: the batch mode `calculate_diversity`
(`1-calculate-diversity.cypher`) computes the four metrics for every
account from the current edges and writes them onto the account records. -/
def calculate_diversity (s : DStore) : DStore :=
  { s with accounts := s.accounts.map fun a =>
      { a with
        uniqueCounterparties := some (uniqueCounterparties s.edges a.id)
        totalTransactions := some (totalTransactions s.edges a.id)
        diversityRatio := diversityRatio s.edges a.id
        topCounterpartyShare := topCounterpartyShare s.edges a.id } }

/-- The record the real-time diversity query returns for a pair of
accounts. -/
structure RTRecord : Type where
  sourceUniqueCounterparties : Nat
  sourceTotalTransactions : Nat
  sourceDiversityRatio : Option ℚ
  sourceTopCounterpartyShare : Option ℚ
  targetUniqueCounterparties : Nat
  targetTotalTransactions : Nat
  targetDiversityRatio : Option ℚ
  targetTopCounterpartyShare : Option ℚ
deriving DecidableEq, Repr

/-- Modelled from the spec: the real-time mode `query_realtime`
(`3-query-realtime.cypher`) matches the two requested accounts and
aggregates their metrics fresh from the current transaction edges; it
returns the not-found signal when either account does not exist. -/
def query_realtime (s : DStore) (src tgt : String) : Option RTRecord :=
  if (s.accounts.any fun a => a.id == src) &&
      (s.accounts.any fun a => a.id == tgt) then
    some ⟨uniqueCounterparties s.edges src, totalTransactions s.edges src,
      diversityRatio s.edges src, topCounterpartyShare s.edges src,
      uniqueCounterparties s.edges tgt, totalTransactions s.edges tgt,
      diversityRatio s.edges tgt, topCounterpartyShare s.edges tgt⟩
  else none

/-- C3: for an account with zero total transactions, both diversityRatio
and topCounterpartyShare are the explicit null, never a number — the
division by totalTransactions is guarded and cannot be performed. -/
theorem C3_zero_transactions_null_ratios (edges : List Edge) (a : String)
    (h : totalTransactions edges a = 0) :
    diversityRatio edges a = none ∧ topCounterpartyShare edges a = none ∧
    (∀ q : ℚ, diversityRatio edges a ≠ some q) ∧
    (∀ q : ℚ, topCounterpartyShare edges a ≠ some q) := by
  refine ⟨by simp [diversityRatio, h], by simp [topCounterpartyShare, h],
    ?_, ?_⟩ <;> intro q <;> simp [diversityRatio, topCounterpartyShare, h]

/-- Witness for C3: an account with no incident transactions in a
one-edge store has zero total transactions and null ratios. -/
theorem C3_zero_transactions_null_ratios_witness :
    diversityRatio [Edge.mk "A" "B"] "C" = none ∧
    topCounterpartyShare [Edge.mk "A" "B"] "C" = none ∧
    (∀ q : ℚ, diversityRatio [Edge.mk "A" "B"] "C" ≠ some q) ∧
    (∀ q : ℚ, topCounterpartyShare [Edge.mk "A" "B"] "C" ≠ some q) :=
  C3_zero_transactions_null_ratios [Edge.mk "A" "B"] "C" (by decide)

theorem query_realtime_congr (t s : DStore) (src tgt : String)
    (hedges : t.edges = s.edges)
    (hids : t.accounts.map DAccount.id = s.accounts.map DAccount.id) :
    query_realtime t src tgt = query_realtime s src tgt := by
  have hany : ∀ x : String,
      (t.accounts.any fun a => a.id == x) =
        (s.accounts.any fun a => a.id == x) := by
    intro x
    have h := congrArg (fun l : List String => l.any fun i => i == x) hids
    simpa [any_map_fn] using h
  unfold query_realtime
  rw [hany src, hany tgt, hedges]

theorem calculate_diversity_edges (s : DStore) :
    (calculate_diversity s).edges = s.edges := rfl

theorem calculate_diversity_ids (s : DStore) :
    (calculate_diversity s).accounts.map DAccount.id =
      s.accounts.map DAccount.id := by
  simp [calculate_diversity, List.map_map, Function.comp_def]

/-- C9: the real-time diversity query is unaffected by the batch
computation having run — running the batch first writes per-account
attributes but leaves the query's answer unchanged — and more generally
its answer depends only on the edges and the account identities, not on
any stored per-account attribute. -/
theorem C9_query_realtime_batch_noninterference (s : DStore)
    (src tgt : String) :
    query_realtime (calculate_diversity s) src tgt =
      query_realtime s src tgt ∧
    (∀ t : DStore, t.edges = s.edges →
      t.accounts.map DAccount.id = s.accounts.map DAccount.id →
      query_realtime t src tgt = query_realtime s src tgt) := by
  constructor
  · exact query_realtime_congr _ s src tgt (calculate_diversity_edges s)
      (calculate_diversity_ids s)
  · intro t hedges hids
    exact query_realtime_congr t s src tgt hedges hids

/-- Witness for C9 at a concrete store: one account, one edge; the batch
writes attributes but the real-time answer is unchanged. -/
theorem C9_query_realtime_batch_noninterference_witness :
    query_realtime (calculate_diversity
        (DStore.mk [DAccount.mk "A" none none none none] [Edge.mk "A" "B"]))
        "A" "A" =
      query_realtime
        (DStore.mk [DAccount.mk "A" none none none none] [Edge.mk "A" "B"])
        "A" "A" ∧
    (∀ t : DStore,
      t.edges = (DStore.mk [DAccount.mk "A" none none none none]
        [Edge.mk "A" "B"]).edges →
      t.accounts.map DAccount.id =
        (DStore.mk [DAccount.mk "A" none none none none]
          [Edge.mk "A" "B"]).accounts.map DAccount.id →
      query_realtime t "A" "A" =
        query_realtime (DStore.mk [DAccount.mk "A" none none none none]
          [Edge.mk "A" "B"]) "A" "A") :=
  C9_query_realtime_batch_noninterference _ "A" "A"

end MuleDetection.Diversity

namespace MuleDetection.Density

/-! ### Community mule density (community pipeline step 3)

The density formula lives in `3-calculate-density.cypher`, which is not in
the repository snapshot; it is modelled from spec sections 3 and 4.3: for
each community, size = count of member accounts, muleCount = count of
members flagged as confirmed mules, density = muleCount / size (defined as
0 when size = 0), and the three values are written onto every member
account. -/

/-- An account record with the attributes the community pipeline reads and
writes. -/
structure CAccount : Type where
  id : String
  isConfirmedMule : Bool
  communityId : Option Int
  communitySize : Option Nat
  muleCount : Option Nat
  muleDensity : Option ℚ
deriving DecidableEq, Repr

/-- The community store: the account records. -/
structure CStore : Type where
  accounts : List CAccount
deriving DecidableEq, Repr

/-- Size of a community: the number of accounts assigned its id. -/
def communitySize (s : CStore) (c : Int) : Nat :=
  s.accounts.countP fun a => a.communityId == some c

/-- Number of confirmed mules in a community. -/
def communityMuleCount (s : CStore) (c : Int) : Nat :=
  s.accounts.countP fun a => a.communityId == some c && a.isConfirmedMule

/-- Modelled from the spec: density = muleCount / size, defined as 0 (not
NaN) when the size is 0. -/
def muleDensity (s : CStore) (c : Int) : ℚ :=
  if communitySize s c = 0 then 0
  else (communityMuleCount s c : ℚ) / (communitySize s c : ℚ)

/-- One community summary row returned by the density stage. -/
structure CommunitySummary : Type where
  communityId : Int
  communitySize : Nat
  muleCount : Nat
  muleDensity : ℚ
deriving DecidableEq, Repr

/-- The distinct community ids present in the store, in first-seen order. -/
def communityIds (s : CStore) : List Int :=
  (s.accounts.filterMap CAccount.communityId).dedup

/-- The per-account write of the density stage: an account assigned to
community `c` receives that community's size, mule count and density;
unassigned accounts are untouched. -/
def writeAccount (s : CStore) (a : CAccount) : CAccount :=
  match a.communityId with
  | some c =>
    { a with
      communitySize := some (communitySize s c)
      muleCount := some (communityMuleCount s c)
      muleDensity := some (muleDensity s c) }
  | none => a

/-- Modelled from the spec: `calculate_density`
(`3-calculate-density.cypher`) computes size, mule count and density per
community from the current community assignment and mule flags, writes
them onto every member account, and returns one summary per community. -/
def calculate_density (s : CStore) : CStore × List CommunitySummary :=
  (CStore.mk (s.accounts.map (writeAccount s)),
   (communityIds s).map fun c =>
     ⟨c, communitySize s c, communityMuleCount s c, muleDensity s c⟩)

/-- C5: density is in [0, 1], the mule count never exceeds the community
size, a community containing an assigned account has size at least 1, and
a size-0 community has density exactly 0 (no division is attempted). -/
theorem C5_density_invariants (s : CStore) (c : Int) :
    0 ≤ muleDensity s c ∧ muleDensity s c ≤ 1 ∧
    communityMuleCount s c ≤ communitySize s c ∧
    (communitySize s c = 0 → muleDensity s c = 0) ∧
    (∀ a ∈ s.accounts, a.communityId = some c → 1 ≤ communitySize s c) := by
  have hle : communityMuleCount s c ≤ communitySize s c := by
    apply List.countP_mono_left
    intro a _ h
    exact (Bool.and_elim_left h)
  refine ⟨?_, ?_, hle, ?_, ?_⟩
  · unfold muleDensity
    split
    · exact le_refl 0
    · positivity
  · unfold muleDensity
    split
    · exact zero_le_one
    · rename_i hsz
      rw [div_le_one (by exact_mod_cast Nat.pos_of_ne_zero hsz)]
      exact_mod_cast hle
  · intro h; simp [muleDensity, h]
  · intro a ha hc
    have : 0 < communitySize s c := by
      rw [communitySize, List.countP_pos_iff]
      exact ⟨a, ha, by simp [hc]⟩
    omega

/-- Witness for C5 at a one-account store: a confirmed mule assigned to
community 7 gives size 1, mule count 1, density 1. -/
theorem C5_density_invariants_witness :
    (0 ≤ muleDensity (CStore.mk [CAccount.mk "A" true (some 7) none none none]) 7 ∧
    muleDensity (CStore.mk [CAccount.mk "A" true (some 7) none none none]) 7 ≤ 1 ∧
    communityMuleCount (CStore.mk [CAccount.mk "A" true (some 7) none none none]) 7 ≤
      communitySize (CStore.mk [CAccount.mk "A" true (some 7) none none none]) 7 ∧
    (communitySize (CStore.mk [CAccount.mk "A" true (some 7) none none none]) 7 = 0 →
      muleDensity (CStore.mk [CAccount.mk "A" true (some 7) none none none]) 7 = 0) ∧
    (∀ a ∈ (CStore.mk [CAccount.mk "A" true (some 7) none none none]).accounts,
      a.communityId = some 7 →
      1 ≤ communitySize (CStore.mk [CAccount.mk "A" true (some 7) none none none]) 7)) ∧
    communitySize (CStore.mk [CAccount.mk "A" true (some 7) none none none]) 7 = 1 :=
  ⟨C5_density_invariants _ 7, by decide⟩

theorem writeAccount_communityId (s : CStore) (a : CAccount) :
    (writeAccount s a).communityId = a.communityId := by
  unfold writeAccount
  cases h : a.communityId <;> simp [h]

theorem writeAccount_mule (s : CStore) (a : CAccount) :
    (writeAccount s a).isConfirmedMule = a.isConfirmedMule := by
  unfold writeAccount
  cases h : a.communityId <;> simp [h]

theorem communitySize_write (s : CStore) (c : Int) :
    communitySize (calculate_density s).1 c = communitySize s c := by
  unfold communitySize calculate_density
  rw [List.countP_map]
  apply List.countP_congr
  intro a _
  simp [Function.comp_def, writeAccount_communityId]

theorem communityMuleCount_write (s : CStore) (c : Int) :
    communityMuleCount (calculate_density s).1 c = communityMuleCount s c := by
  unfold communityMuleCount calculate_density
  rw [List.countP_map]
  apply List.countP_congr
  intro a _
  simp [Function.comp_def, writeAccount_communityId, writeAccount_mule]

theorem muleDensity_write (s : CStore) (c : Int) :
    muleDensity (calculate_density s).1 c = muleDensity s c := by
  unfold muleDensity
  rw [communitySize_write, communityMuleCount_write]

theorem communityIds_write (s : CStore) :
    communityIds (calculate_density s).1 = communityIds s := by
  unfold communityIds calculate_density
  rw [List.filterMap_map]
  congr 1
  apply List.filterMap_congr
  intro a _
  simp [Function.comp_def, writeAccount_communityId]

/-- C6: the density stage is idempotent — running `calculate_density` on
the store it has just written produces the identical stored per-account
values and the identical community summaries. -/
theorem C6_calculate_density_idempotent (s : CStore) :
    calculate_density (calculate_density s).1 = calculate_density s := by
  have hw : ∀ a, writeAccount (calculate_density s).1 (writeAccount s a) =
      writeAccount s a := by
    intro a
    have hcid := writeAccount_communityId s a
    cases h : a.communityId with
    | none =>
      have : writeAccount s a = a := by simp [writeAccount, h]
      rw [this]
      simp [writeAccount, h]
    | some c =>
      rw [show writeAccount s a =
        { a with communitySize := some (communitySize s c),
                 muleCount := some (communityMuleCount s c),
                 muleDensity := some (muleDensity s c) } by
          simp [writeAccount, h]]
      simp [writeAccount, h, communitySize_write, communityMuleCount_write,
        muleDensity_write]
  rw [Prod.ext_iff]
  constructor
  · change CStore.mk ((s.accounts.map (writeAccount s)).map
        (writeAccount (calculate_density s).1)) =
      CStore.mk (s.accounts.map (writeAccount s))
    rw [List.map_map]
    congr 1
    apply List.map_congr_left
    intro a _
    exact hw a
  · change (communityIds (calculate_density s).1).map
        (fun c => (⟨c, communitySize (calculate_density s).1 c,
          communityMuleCount (calculate_density s).1 c,
          muleDensity (calculate_density s).1 c⟩ : CommunitySummary)) =
      (communityIds s).map fun c =>
        ⟨c, communitySize s c, communityMuleCount s c, muleDensity s c⟩
    rw [communityIds_write]
    apply List.map_congr_left
    intro c _
    rw [communitySize_write, communityMuleCount_write, muleDensity_write]

end MuleDetection.Density

namespace MuleDetection.Pathfinder

/-! ### Mule-distance pathfinder (distance_to_mule.cypher)

The shortest-path search executed by `distance_to_mule.run` lives in
`distance_to_mule.cypher`, which is not in the repository snapshot; it is
modelled from spec section 4.5: a multi-source breadth-first search seeded
simultaneously from every confirmed mule with distance 0, assigning each
account the hop count at which the expanding frontier first reaches it,
with the first seed in deterministic order at that hop count recorded as
the nearest mule.  `reachB g S d a` decides whether the frontier grown
from the seed set `S` for `d` hops has reached `a`, so the BFS-assigned
distance of `a` is the least `d` with `reachB g S d a`; a walk from `a`
to the seed set plays the role of the true path whose hop count the
search must minimise. -/

variable {α : Type} [DecidableEq α]

/-- A finite graph: its node list and its adjacency test. -/
structure Graph (α : Type) : Type where
  nodes : List α
  adj : α → α → Bool

/-- Frontier reachability: `reachB g S d a` holds when `a` is within `d`
hops of the seed set `S`, expanding one hop per step through nodes of the
graph. -/
def reachB (g : Graph α) (S : List α) : Nat → α → Bool
  | 0, a => S.contains a
  | n + 1, a =>
    reachB g S n a || g.nodes.any fun b => g.adj a b && reachB g S n b

/-- A chain of adjacency steps starting at a node, passing only through
nodes of the graph. -/
def chainAdj (g : Graph α) : α → List α → Bool
  | _, [] => true
  | a, b :: rest => g.adj a b && g.nodes.contains b && chainAdj g b rest

/-- The last node of the walk that starts at `a` and continues through
`rest`. -/
def walkEnd (a : α) (rest : List α) : α :=
  rest.getLastD a

/-- A walk of `rest.length` hops from `a` into the target set `S`: the
steps are adjacent, pass through graph nodes, and the walk ends in `S`. -/
def WalkTo (g : Graph α) (S : List α) (a : α) (rest : List α) : Prop :=
  chainAdj g a rest = true ∧ walkEnd a rest ∈ S

/-- The least `d < k` satisfying `p`, scanning upward. -/
def scanLeast (p : Nat → Bool) : Nat → Option Nat
  | 0 => none
  | k + 1 =>
    match scanLeast p k with
    | some d => some d
    | none => if p k then some k else none

/-- Modelled from the spec: the BFS-assigned distance of an account — the
first hop count at which the multi-source frontier reaches it, null when
it is never reached.  Hop counts up to the node count suffice to reach
every reachable node. -/
def distToSet (g : Graph α) (S : List α) (a : α) : Option Nat :=
  scanLeast (fun d => reachB g S d a) (g.nodes.length + 1)

/-- Modelled from the spec: `distanceToMule` is the BFS distance from the
account to the set of confirmed mules. -/
def distanceToMule (g : Graph α) (mules : List α) (a : α) : Option Nat :=
  distToSet g mules a

/-- Modelled from the spec: `nearestMule` is the first mule in seed order
whose own BFS distance from the account equals the overall assigned
distance — the deterministic tie-break of section 4.5. -/
def nearestMule (g : Graph α) (mules : List α) (a : α) : Option α :=
  match distToSet g mules a with
  | none => none
  | some d => mules.find? fun m => distToSet g [m] a == some d

theorem scanLeast_none_spec (p : Nat → Bool) (k : Nat)
    (h : scanLeast p k = none) : ∀ d < k, p d = false := by
  induction k with
  | zero => intro d hd; omega
  | succ k ih =>
    intro d hd
    unfold scanLeast at h
    rcases hk : scanLeast p k with _ | e
    · rw [hk] at h
      by_cases hpk : p k = true
      · simp [hpk] at h
      · rcases Nat.lt_succ_iff_lt_or_eq.mp hd with hlt | rfl
        · exact ih hk d hlt
        · exact Bool.eq_false_iff.mpr hpk
    · rw [hk] at h
      simp at h

theorem scanLeast_some_spec (p : Nat → Bool) (k d : Nat)
    (h : scanLeast p k = some d) :
    d < k ∧ p d = true ∧ ∀ e < d, p e = false := by
  induction k with
  | zero => simp [scanLeast] at h
  | succ k ih =>
    unfold scanLeast at h
    rcases hk : scanLeast p k with _ | e
    · rw [hk] at h
      by_cases hpk : p k = true
      · simp [hpk] at h
        subst h
        exact ⟨Nat.lt_succ_self k, hpk, scanLeast_none_spec p k hk⟩
      · simp [Bool.eq_false_iff.mpr hpk] at h
    · rw [hk] at h
      simp at h
      subst h
      obtain ⟨h1, h2, h3⟩ := ih hk
      exact ⟨Nat.lt_succ_of_lt h1, h2, h3⟩

theorem scanLeast_of_true (p : Nat → Bool) (k d : Nat)
    (hp : p d = true) (hd : d < k) :
    ∃ e, scanLeast p k = some e ∧ e ≤ d := by
  induction k with
  | zero => omega
  | succ k ih =>
    rcases hk : scanLeast p k with _ | e
    · have hdk : d = k := by
        by_contra hne
        have hlt : d < k := by omega
        obtain ⟨e, he, _⟩ := ih hlt
        rw [he] at hk
        cases hk
      subst hdk
      refine ⟨d, ?_, le_refl d⟩
      unfold scanLeast
      rw [hk, hp]
      simp
    · obtain ⟨h1, h2, h3⟩ := scanLeast_some_spec p k e hk
      refine ⟨e, ?_, ?_⟩
      · unfold scanLeast
        rw [hk]
      · by_contra hlt
        exact absurd hp (by simp [h3 d (by omega)])

theorem reachB_succ_of (g : Graph α) (S : List α) (n : Nat) (a : α)
    (h : reachB g S n a = true) : reachB g S (n + 1) a = true := by
  unfold reachB
  rw [h]
  rfl

theorem reachB_mono (g : Graph α) (S : List α) {m n : Nat} (h : m ≤ n)
    (a : α) (hm : reachB g S m a = true) : reachB g S n a = true := by
  induction n with
  | zero =>
    have : m = 0 := Nat.le_zero.mp h
    subst this
    exact hm
  | succ n ih =>
    rcases Nat.lt_succ_iff_lt_or_eq.mp (Nat.lt_succ_of_le h) with hlt | rfl
    · exact reachB_succ_of g S n a (ih (by omega))
    · exact hm

theorem reachB_iff_walk (g : Graph α) (S : List α) :
    ∀ (d : Nat) (a : α), reachB g S d a = true ↔
      ∃ rest, rest.length ≤ d ∧ WalkTo g S a rest := by
  intro d
  induction d with
  | zero =>
    intro a
    constructor
    · intro h
      exact ⟨[], by simp, rfl, List.elem_iff.mp h⟩
    · rintro ⟨rest, hlen, hchain, hend⟩
      have hnil : rest = [] := List.eq_nil_of_length_eq_zero (Nat.le_zero.mp hlen)
      subst hnil
      exact List.elem_iff.mpr hend
  | succ d ih =>
    intro a
    constructor
    · intro h
      rcases Bool.or_eq_true_iff.mp h with h1 | h2
      · obtain ⟨rest, hlen, hw⟩ := (ih a).mp h1
        exact ⟨rest, by omega, hw⟩
      · obtain ⟨b, hbmem, hb⟩ := List.any_eq_true.mp h2
        obtain ⟨hadj, hrb⟩ := Bool.and_eq_true_iff.mp hb
        obtain ⟨rest, hlen, hchain, hend⟩ := (ih b).mp hrb
        refine ⟨b :: rest, by simp; omega, ?_, ?_⟩
        · show chainAdj g a (b :: rest) = true
          unfold chainAdj
          simp [hadj, hchain, List.elem_eq_mem, hbmem]
        · show walkEnd a (b :: rest) ∈ S
          rw [walkEnd, List.getLastD_cons]
          exact hend
    · rintro ⟨rest, hlen, hchain, hend⟩
      cases rest with
      | nil =>
        exact reachB_mono g S (Nat.zero_le _) a (List.elem_iff.mpr hend)
      | cons b r =>
        unfold chainAdj at hchain
        obtain ⟨h12, hch⟩ := Bool.and_eq_true_iff.mp hchain
        obtain ⟨hadj, hbmem⟩ := Bool.and_eq_true_iff.mp h12
        have hw : WalkTo g S b r := by
          refine ⟨hch, ?_⟩
          rw [walkEnd] at hend ⊢
          rw [List.getLastD_cons] at hend
          exact hend
        have hr : reachB g S d b = true := by
          apply (ih b).mpr
          exact ⟨r, by simp at hlen; omega, hw⟩
        unfold reachB
        apply Bool.or_eq_true_iff.mpr
        right
        apply List.any_eq_true.mpr
        exact ⟨b, List.elem_iff.mp hbmem, by rw [hadj, hr]; rfl⟩

theorem chainAdj_mem_nodes (g : Graph α) :
    ∀ (rest : List α) (a : α), chainAdj g a rest = true →
      ∀ x ∈ rest, x ∈ g.nodes := by
  intro rest
  induction rest with
  | nil => intro a _ x hx; cases hx
  | cons b r ih =>
    intro a h x hx
    unfold chainAdj at h
    obtain ⟨h12, hch⟩ := Bool.and_eq_true_iff.mp h
    obtain ⟨_, hbmem⟩ := Bool.and_eq_true_iff.mp h12
    rcases List.mem_cons.mp hx with rfl | hxr
    · exact List.elem_iff.mp hbmem
    · exact ih b hch x hxr

theorem not_nodup_split {l : List α} (h : ¬ l.Nodup) :
    ∃ (l₁ : List α) (x : α) (l₂ l₃ : List α),
      l = l₁ ++ (x :: (l₂ ++ (x :: l₃))) := by
  induction l with
  | nil => exact absurd List.nodup_nil h
  | cons y ys ih =>
    by_cases hy : y ∈ ys
    · obtain ⟨s, t, rfl⟩ := List.append_of_mem hy
      exact ⟨[], y, s, t, rfl⟩
    · have hys : ¬ ys.Nodup := by
        intro hn
        exact h (List.nodup_cons.mpr ⟨hy, hn⟩)
      obtain ⟨l₁, x, l₂, l₃, rfl⟩ := ih hys
      exact ⟨y :: l₁, x, l₂, l₃, rfl⟩

theorem nodup_length_le {l s : List α} (hn : l.Nodup)
    (hs : ∀ x ∈ l, x ∈ s) : l.length ≤ s.length := by
  have h1 : l.toFinset.card = l.length := List.toFinset_card_of_nodup hn
  have h2 : l.toFinset ⊆ s.toFinset := by
    intro x hx
    rw [List.mem_toFinset] at hx ⊢
    exact hs x hx
  have h3 : s.toFinset.card ≤ s.length := by
    rw [List.card_toFinset]
    exact List.Sublist.length_le (List.dedup_sublist s)
  calc l.length = l.toFinset.card := h1.symm
    _ ≤ s.toFinset.card := Finset.card_le_card h2
    _ ≤ s.length := h3

theorem chainAdj_drop (g : Graph α) :
    ∀ (u : List α) (a x : α) (v : List α),
      chainAdj g a (u ++ (x :: v)) = true → chainAdj g x v = true := by
  intro u
  induction u with
  | nil =>
    intro a x v h
    rw [List.nil_append] at h
    unfold chainAdj at h
    exact (Bool.and_eq_true_iff.mp h).2
  | cons b u' ih =>
    intro a x v h
    rw [List.cons_append] at h
    unfold chainAdj at h
    exact ih b x v (Bool.and_eq_true_iff.mp h).2

theorem chainAdj_cut (g : Graph α) :
    ∀ (l₁ : List α) (a x : α) (l₂ l₃ : List α),
      chainAdj g a (l₁ ++ (x :: (l₂ ++ (x :: l₃)))) = true →
      chainAdj g a (l₁ ++ (x :: l₃)) = true := by
  intro l₁
  induction l₁ with
  | nil =>
    intro a x l₂ l₃ h
    rw [List.nil_append] at h ⊢
    unfold chainAdj at h ⊢
    obtain ⟨h12, hch⟩ := Bool.and_eq_true_iff.mp h
    exact Bool.and_eq_true_iff.mpr ⟨h12, chainAdj_drop g l₂ x x l₃ hch⟩
  | cons b l₁ ih =>
    intro a x l₂ l₃ h
    rw [List.cons_append] at h ⊢
    unfold chainAdj at h ⊢
    obtain ⟨h12, hch⟩ := Bool.and_eq_true_iff.mp h
    exact Bool.and_eq_true_iff.mpr ⟨h12, ih b x l₂ l₃ hch⟩

omit [DecidableEq α] in
theorem getLastD_append_cons (u : List α) (c : α) (w : List α) (d : α) :
    (u ++ (c :: w)).getLastD d = w.getLastD c := by
  induction u generalizing d with
  | nil => rw [List.nil_append, List.getLastD_cons]
  | cons b u ih => rw [List.cons_append, List.getLastD_cons]; exact ih b

omit [DecidableEq α] in
theorem walkEnd_cut (a x : α) (l₁ l₂ l₃ : List α) :
    walkEnd a (l₁ ++ (x :: (l₂ ++ (x :: l₃)))) =
      walkEnd a (l₁ ++ (x :: l₃)) := by
  unfold walkEnd
  rw [getLastD_append_cons, getLastD_append_cons, getLastD_append_cons]

theorem walk_shorten (g : Graph α) (S : List α) (a : α) (rest : List α)
    (hw : WalkTo g S a rest) :
    ∃ rest', rest'.length ≤ g.nodes.length ∧ WalkTo g S a rest' := by
  have main : ∀ (n : Nat) (rest : List α), rest.length = n →
      WalkTo g S a rest →
      ∃ rest', rest'.length ≤ g.nodes.length ∧ WalkTo g S a rest' := by
    intro n
    induction n using Nat.strong_induction_on with
    | _ n ih =>
      intro rest hlen hw
      by_cases hle : rest.length ≤ g.nodes.length
      · exact ⟨rest, hle, hw⟩
      · have hsub : ∀ x ∈ rest, x ∈ g.nodes :=
          chainAdj_mem_nodes g rest a hw.1
        have hnd : ¬ rest.Nodup := by
          intro hnd
          exact hle (nodup_length_le hnd hsub)
        obtain ⟨l₁, x, l₂, l₃, rfl⟩ := not_nodup_split hnd
        have hw2 : WalkTo g S a (l₁ ++ (x :: l₃)) := by
          refine ⟨chainAdj_cut g l₁ a x l₂ l₃ hw.1, ?_⟩
          have := hw.2
          rwa [walkEnd_cut a x l₁ l₂ l₃] at this
        refine ih (l₁ ++ (x :: l₃)).length ?_ _ rfl hw2
        subst hlen
        simp
        omega
  exact main rest.length rest rfl hw

theorem distToSet_some_of_walk (g : Graph α) (S : List α) (a : α)
    (rest : List α) (hw : WalkTo g S a rest) :
    ∃ d, distToSet g S a = some d := by
  obtain ⟨rest', hlen', hw'⟩ := walk_shorten g S a rest hw
  have hr : reachB g S rest'.length a = true :=
    (reachB_iff_walk g S rest'.length a).mpr ⟨rest', le_refl _, hw'⟩
  obtain ⟨e, he, _⟩ :=
    scanLeast_of_true (fun d => reachB g S d a) (g.nodes.length + 1)
      rest'.length hr (by omega)
  exact ⟨e, he⟩

theorem distToSet_shortest (g : Graph α) (S : List α) (a : α) (d : Nat)
    (hd : distToSet g S a = some d) :
    (∃ rest, rest.length = d ∧ WalkTo g S a rest) ∧
    (∀ rest, WalkTo g S a rest → d ≤ rest.length) := by
  obtain ⟨hdk, hreachd, hmin⟩ :=
    scanLeast_some_spec (fun e => reachB g S e a) (g.nodes.length + 1) d hd
  have hminwalk : ∀ rest, WalkTo g S a rest → d ≤ rest.length := by
    intro rest hw
    by_contra hlt
    push_neg at hlt
    have hr : reachB g S rest.length a = true :=
      (reachB_iff_walk g S rest.length a).mpr ⟨rest, le_refl _, hw⟩
    rw [hmin rest.length hlt] at hr
    cases hr
  obtain ⟨rest, hlen, hw⟩ := (reachB_iff_walk g S d a).mp hreachd
  exact ⟨⟨rest, le_antisymm hlen (hminwalk rest hw), hw⟩, hminwalk⟩

theorem walkTo_of_singleton (g : Graph α) (mules : List α) (m : α)
    (hm : m ∈ mules) (a : α) (rest : List α) (hw : WalkTo g [m] a rest) :
    WalkTo g mules a rest := by
  refine ⟨hw.1, ?_⟩
  have := hw.2
  rw [List.mem_singleton] at this
  rw [this]
  exact hm

/-- C4: for every graph, non-empty confirmed-mule set and account that has
any walk to a mule, the pathfinder assigns the account a distance `d` that
is the true shortest hop count to any mule — a walk of exactly `d` hops to
a mule exists and no walk to any mule is shorter — and `nearestMule` picks
a mule whose own shortest hop distance from the account is exactly `d`. -/
theorem C4_bfs_distance_shortest (g : Graph α) (mules : List α) (a : α)
    (hmules : mules ≠ []) (hreach : ∃ rest, WalkTo g mules a rest) :
    ∃ d, distanceToMule g mules a = some d ∧
      (∃ rest, rest.length = d ∧ WalkTo g mules a rest) ∧
      (∀ rest, WalkTo g mules a rest → d ≤ rest.length) ∧
      (∃ m, nearestMule g mules a = some m ∧ m ∈ mules ∧
        (∃ rest, rest.length = d ∧ WalkTo g [m] a rest) ∧
        (∀ rest, WalkTo g [m] a rest → d ≤ rest.length)) := by
  obtain ⟨rest0, hw0⟩ := hreach
  obtain ⟨d, hd⟩ := distToSet_some_of_walk g mules a rest0 hw0
  obtain ⟨⟨rest, hlend, hw⟩, hminwalk⟩ := distToSet_shortest g mules a d hd
  -- The mule this optimal walk ends at.
  have hm0 : walkEnd a rest ∈ mules := hw.2
  have hw_m0 : WalkTo g [walkEnd a rest] a rest := ⟨hw.1, List.mem_singleton.mpr rfl⟩
  obtain ⟨d0, hd0⟩ := distToSet_some_of_walk g [walkEnd a rest] a rest hw_m0
  obtain ⟨⟨restm, hlenm, hwm⟩, hminwalk0⟩ :=
    distToSet_shortest g [walkEnd a rest] a d0 hd0
  have hd0d : d0 = d := by
    have h1 : d ≤ d0 := by
      have := hminwalk restm (walkTo_of_singleton g mules (walkEnd a rest) hm0 a restm hwm)
      omega
    have h2 : d0 ≤ d := by
      have := hminwalk0 rest hw_m0
      omega
    omega
  -- The deterministic tie-break finds some mule at distance exactly d.
  have hfind : (mules.find? fun m => distToSet g [m] a == some d).isSome := by
    rw [List.find?_isSome]
    refine ⟨walkEnd a rest, hm0, ?_⟩
    simp [hd0, hd0d]
  obtain ⟨m, hfm⟩ := Option.isSome_iff_exists.mp hfind
  have hmmem : m ∈ mules := List.mem_of_find?_eq_some hfm
  have hmp : distToSet g [m] a = some d := by
    have := List.find?_some hfm
    rwa [beq_iff_eq] at this
  obtain ⟨hattm, hminm⟩ := distToSet_shortest g [m] a d hmp
  refine ⟨d, hd, ⟨rest, hlend, hw⟩, hminwalk, m, ?_, hmmem, hattm, hminm⟩
  unfold nearestMule
  rw [show distToSet g mules a = some d from hd]
  exact hfm

/-- Witness for C4: in the path graph 0 — 1 — 2 with confirmed mule 2,
account 0 is assigned distance 2 with nearest mule 2. -/
theorem C4_bfs_distance_shortest_witness :
    ∃ d, distanceToMule
        (Graph.mk [0, 1, 2]
          (fun a b => [(0, 1), (1, 0), (1, 2), (2, 1)].contains (a, b)))
        [2] 0 = some d ∧
      (∃ rest, rest.length = d ∧ WalkTo
        (Graph.mk [0, 1, 2]
          (fun a b => [(0, 1), (1, 0), (1, 2), (2, 1)].contains (a, b)))
        [2] 0 rest) ∧
      (∀ rest, WalkTo
        (Graph.mk [0, 1, 2]
          (fun a b => [(0, 1), (1, 0), (1, 2), (2, 1)].contains (a, b)))
        [2] 0 rest → d ≤ rest.length) ∧
      (∃ m, nearestMule
          (Graph.mk [0, 1, 2]
            (fun a b => [(0, 1), (1, 0), (1, 2), (2, 1)].contains (a, b)))
          [2] 0 = some m ∧ m ∈ [2] ∧
        (∃ rest, rest.length = d ∧ WalkTo
          (Graph.mk [0, 1, 2]
            (fun a b => [(0, 1), (1, 0), (1, 2), (2, 1)].contains (a, b)))
          [m] 0 rest) ∧
        (∀ rest, WalkTo
          (Graph.mk [0, 1, 2]
            (fun a b => [(0, 1), (1, 0), (1, 2), (2, 1)].contains (a, b)))
          [m] 0 rest → d ≤ rest.length)) :=
  C4_bfs_distance_shortest
    (Graph.mk [0, 1, 2]
      (fun a b => [(0, 1), (1, 0), (1, 2), (2, 1)].contains (a, b)))
    [2] 0 (by decide) ⟨[1, 2], by decide, by decide⟩

end MuleDetection.Pathfinder
